import Mathlib

/-!
Verification of the latent-imagination actor-critic core of
`WorldModel2024-IntrinsicMotivation-t13`.

The Python sources `src/model/achiever_reward.py`, `src/model/explorer.py`
and `src/train.py` are shallowly embedded below.  Neural networks
(`state2emb`, the distance estimator, actor, critic, the world model's
`posterior`/`imagine` and the λ-return utility `compute_lambda_target`)
live outside the core (spec §6); they enter the embedding as abstract
function parameters.  Ambient NumPy randomness is made explicit as oracle
parameters that supply the draws.  Machine floats are modelled exactly:
rationals for all purely arithmetic paths, reals where a square root is
taken (the cosine reward).
-/

namespace AchieverReward

/-- List dot product, truncating at the shorter list (both lists the code
builds have equal length). -/
def dot : List ℚ → List ℚ → ℚ
  | a :: as, b :: bs => a * b + dot as bs
  | _, _ => 0

/-- Sum of squares of a vector, `torch.norm(v) ^ 2`. -/
def sumSq (v : List ℚ) : ℚ := dot v v

/-- `get_future_goal_idxs(seq_len, bs)` from
`TemporalLatentDistanceReward.train`: for every `cur_idx < seq_len`, every
`goal_idx` in `[cur_idx, seq_len)` and every batch column `b < bs`, one
aligned pair `((cur_idx, b), (goal_idx, b))` of (time, batch) indices. -/
def getFutureGoalIdxs (seqLen bs : ℕ) : List ((ℕ × ℕ) × (ℕ × ℕ)) :=
  (List.range seqLen).flatMap fun cur =>
    (List.range' cur (seqLen - cur)).flatMap fun goal =>
      (List.range bs).map fun b => ((cur, b), (goal, b))

/-- The regression target for a positive pair:
`(goal_idx[:,0] - current_idx[:,0]) / horison_length` (float division). -/
def targetDistance (horisonLength curTime goalTime : ℕ) : ℚ :=
  ((goalTime : ℚ) - (curTime : ℚ)) / (horisonLength : ℚ)

/-- The candidate goal batch indices inside
`get_future_goal_idxs_neg_sampling`:
`[j for j in range(bs) if j // batch_length != cur_batch // batch_length]`. -/
def negCandidates (bs batchLength curBatch : ℕ) : List ℕ :=
  (List.range bs).filter fun j => j / batchLength ≠ curBatch / batchLength

/-- Python's `int()` truncation toward zero of a float. -/
def intTrunc (q : ℚ) : ℤ := if 0 ≤ q then ⌊q⌋ else -⌊-q⌋

/-- The ambient NumPy randomness of `TemporalLatentDistanceReward.train`,
made explicit.  `posSel i` is the `i`-th index drawn by
`np.random.choice(len(current_idxs), num_positives, replace=False)`;
`negCur i` the `i`-th row of `np.random.randint((0,0), (seq_len, bs))`;
`negGoalTime i` the time coordinate of the `i`-th goal row; `pick` is
`np.random.choice` on a candidate list, `none` on the empty list (where
NumPy raises). -/
structure TrainOracle where
  posSel : ℕ → ℕ
  negCur : ℕ → ℕ × ℕ
  negGoalTime : ℕ → ℕ
  pick : List ℕ → Option ℕ

/-- The positive pairs actually used: `current_idxs[idx], goal_idxs[idx]`
for the sampled `idx`. -/
def trainPositives (o : TrainOracle) (horisonLength batchSize numPositives : ℕ) :
    List ((ℕ × ℕ) × (ℕ × ℕ)) :=
  let all := getFutureGoalIdxs horisonLength batchSize
  (List.range numPositives).map fun i => all.getD (o.posSel i) ((0, 0), (0, 0))

/-- `F.mse_loss` with default mean reduction over equally-shaped inputs. -/
def mseLoss (pred target : List ℚ) : ℚ :=
  (((pred.zip target).map fun pq => (pq.1 - pq.2) ^ 2).sum) / (pred.length : ℚ)

/-- The loop body of `get_future_goal_idxs_neg_sampling`, iterated over the
row indices: each row keeps its uniformly drawn current (time, batch) pair
and goal time, and re-draws the goal batch from the cross-episode candidate
list; the first row whose candidate list is empty is where NumPy's
`np.random.choice` raises, reported as `.error` with that row index. -/
def negSampleAux (o : TrainOracle) (bs batchLength : ℕ) :
    List ℕ → Except ℕ (List ((ℕ × ℕ) × (ℕ × ℕ)))
  | [] => .ok []
  | i :: rest =>
    let cur := o.negCur i
    let goalTime := o.negGoalTime i
    match o.pick (negCandidates bs batchLength cur.2) with
    | none => .error i
    | some goalBatch =>
      (negSampleAux o bs batchLength rest).map fun l =>
        (cur, (goalTime, goalBatch)) :: l

/-- `get_future_goal_idxs_neg_sampling(num_negs, seq_len, bs)`. -/
def negSample (o : TrainOracle) (numNegs bs batchLength : ℕ) :
    Except ℕ (List ((ℕ × ℕ) × (ℕ × ℕ))) :=
  negSampleAux o bs batchLength (List.range numNegs)

/-- The positive-phase loss of `TemporalLatentDistanceReward.train`:
`F.mse_loss(pred_distance, target_distance)` over the sampled positive
pairs.  `emb c` abstracts `state2emb(zs[c], hs[c]).mean` and `est`
abstracts the distance estimator. -/
def posLoss {E : Type} (emb : ℕ × ℕ → E) (est : E → E → ℚ) (o : TrainOracle)
    (horisonLength batchSize numPositives : ℕ) : ℚ :=
  let pairs := trainPositives o horisonLength batchSize numPositives
  mseLoss (pairs.map fun p => est (emb p.1) (emb p.2))
    (pairs.map fun p => targetDistance horisonLength p.1.1 p.2.1)

/-- `TemporalLatentDistanceReward.train`: positive-pair MSE, then
`num_negatives = int(num_positives * neg_sampling_factor)` negative pairs
against the constant target `1.0`, the two MSE losses summed.  The only
error path is the empty candidate list inside the negative-sampling loop. -/
def trainResult {E : Type} (emb : ℕ × ℕ → E) (est : E → E → ℚ) (o : TrainOracle)
    (horisonLength batchSize batchLength numPositives : ℕ)
    (negSamplingFactor : ℚ) : Except ℕ ℚ :=
  let pLoss := posLoss emb est o horisonLength batchSize numPositives
  let numNegatives := (intTrunc ((numPositives : ℚ) * negSamplingFactor)).toNat
  match negSample o numNegatives batchSize batchLength with
  | .error i => .error i
  | .ok negs =>
    .ok (pLoss +
      mseLoss (negs.map fun p => est (emb p.1) (emb p.2))
        (List.replicate negs.length 1))

/-- `TemporalLatentDistanceReward.compute_reward(z, h, goal_emb)`:
`-self.distance_estimator(self.state2emb(z, h).mean, goal_emb)`. -/
def temporalComputeReward {Z H E : Type} (state2emb : Z → H → E)
    (est : E → E → ℚ) (z : Z) (h : H) (goalEmb : E) : ℚ :=
  -(est (state2emb z h) goalEmb)

/-- `TemporalLatentDistanceReward.imagine_compute_reward`: both sides are
embedded from latent state before the estimator is applied and negated. -/
def temporalImagineComputeReward {Z H E : Type} (state2emb : Z → H → E)
    (est : E → E → ℚ) (curZ goalZ : Z) (curH goalH : H) : ℚ :=
  -(est (state2emb curZ curH) (state2emb goalZ goalH))

/-- `CosineLatentDistanceReward.compute_reward(z, h, goal_emb)` for one
batch row: the goal embedding is decoded through the world model's
posterior from a zero recurrent state (`posterior` abstracted as `post`,
already flattened), and the result is
`dot(z, g) / (‖z‖ * ‖g‖ + 1e-8)`.  The caller-supplied `h` is never read. -/
noncomputable def cosineComputeReward (post : List ℚ → List ℚ → List ℚ)
    (hDim : ℕ) (z h goalEmb : List ℚ) : ℝ :=
  let initH : List ℚ := List.replicate hDim 0
  let goalState := post initH goalEmb
  ((dot z goalState : ℚ) : ℝ) /
    (Real.sqrt ((sumSq z : ℚ) : ℝ) * Real.sqrt ((sumSq goalState : ℚ) : ℝ) + 1e-8)

/-- `CosineLatentDistanceReward.train(*args)`: returns the integer `0`. -/
def cosineTrain {α : Type} (_args : List α) : ℤ := 0

end AchieverReward

namespace Explorer

/-- The parameter sets relevant to the target-critic claims: the online
critic's parameters and the target critic's parameters (the actor's and
ensemble's parameters play no role in those claims and are carried inside
the abstract network functions). -/
structure ExplorerState (P : Type) where
  criticParams : P
  targetCriticParams : P

/-- `Explorer.update_critic`:
`self.target_critic.load_state_dict(self.critic.state_dict())` — a full
unconditional parameter copy. -/
def updateCritic {P : Type} (s : ExplorerState P) : ExplorerState P :=
  { s with targetCriticParams := s.criticParams }

section Rollout

variable {B : ℕ} {ζ η α : Type}

/-- One iteration of the imagination loop in `Explorer.train`: the actor is
queried on the current (detached) `(zs, hs)`; the world model's `imagine`
advances the state, returning `(hs, zs)` in that order.  The result is the
post-transition `(zs, hs)`. -/
def rolloutStep
    (actorNet : (Fin B → ζ) → (Fin B → η) → (Fin B → α) × (Fin B → ℚ) × (Fin B → ℚ))
    (imagineNet : (Fin B → α) → (Fin B → ζ) → (Fin B → η) → (Fin B → η) × (Fin B → ζ))
    (s : (Fin B → ζ) × (Fin B → η)) : (Fin B → ζ) × (Fin B → η) :=
  let out := actorNet s.1 s.2
  let next := imagineNet out.1 s.1 s.2
  (next.2, next.1)

/-- The pre-transition actor outputs stored at a step: the per-batch-element
log-probabilities and entropies. -/
def actorLogEnt
    (actorNet : (Fin B → ζ) → (Fin B → η) → (Fin B → α) × (Fin B → ℚ) × (Fin B → ℚ))
    (s : (Fin B → ζ) × (Fin B → η)) : (Fin B → ℚ) × (Fin B → ℚ) :=
  ((actorNet s.1 s.2).2.1, (actorNet s.1 s.2).2.2)

/-- The latent state reached after `t` iterations of the imagination loop
from the initial (detached) state. -/
def stateAt
    (actorNet : (Fin B → ζ) → (Fin B → η) → (Fin B → α) × (Fin B → ℚ) × (Fin B → ℚ))
    (imagineNet : (Fin B → α) → (Fin B → ζ) → (Fin B → η) → (Fin B → η) × (Fin B → ζ))
    (s0 : (Fin B → ζ) × (Fin B → η)) : ℕ → (Fin B → ζ) × (Fin B → η)
  | 0 => s0
  | t + 1 => rolloutStep actorNet imagineNet (stateAt actorNet imagineNet s0 t)

/-- The imagination loop of `Explorer.train`, unrolled for the remaining
number of steps: the first component collects `imagined_zs`/`imagined_hs`
(the post-transition states, stored at their loop index), the second
collects `imagined_action_log_probs`/`imagined_action_entropys` (the actor
outputs on the pre-transition state). -/
def rolloutAux
    (actorNet : (Fin B → ζ) → (Fin B → η) → (Fin B → α) × (Fin B → ℚ) × (Fin B → ℚ))
    (imagineNet : (Fin B → α) → (Fin B → ζ) → (Fin B → η) → (Fin B → η) × (Fin B → ζ)) :
    ℕ → (Fin B → ζ) × (Fin B → η) →
      List ((Fin B → ζ) × (Fin B → η)) × List ((Fin B → ℚ) × (Fin B → ℚ))
  | 0, _ => ([], [])
  | t + 1, s =>
    let out := actorNet s.1 s.2
    let next := imagineNet out.1 s.1 s.2
    let rest := rolloutAux actorNet imagineNet t (next.2, next.1)
    ((next.2, next.1) :: rest.1, (out.2.1, out.2.2) :: rest.2)

/-- The rollout of `Explorer.train` over the full horizon. -/
def rollout
    (actorNet : (Fin B → ζ) → (Fin B → η) → (Fin B → α) × (Fin B → ℚ) × (Fin B → ℚ))
    (imagineNet : (Fin B → α) → (Fin B → ζ) → (Fin B → η) → (Fin B → η) × (Fin B → ζ))
    (horisonLength : ℕ) (init : (Fin B → ζ) × (Fin B → η)) :
    List ((Fin B → ζ) × (Fin B → η)) × List ((Fin B → ℚ) × (Fin B → ℚ)) :=
  rolloutAux actorNet imagineNet horisonLength init

end Rollout

section Train

variable {P : Type} {B : ℕ} {ζ η α : Type}

/-- The reward matrix of `Explorer.train`: the intrinsic ensemble reward
(abstracted as a per-element function `reward`) evaluated on the stored
imagined states, reshaped to `(horison_length, batch)`. -/
def rewardsMatrix
    (actorNet : (Fin B → ζ) → (Fin B → η) → (Fin B → α) × (Fin B → ℚ) × (Fin B → ℚ))
    (imagineNet : (Fin B → α) → (Fin B → ζ) → (Fin B → η) → (Fin B → η) × (Fin B → ζ))
    (reward : ζ → η → ℚ) (horisonLength : ℕ) (init : (Fin B → ζ) × (Fin B → η))
    (t : Fin horisonLength) (b : Fin B) : ℚ :=
  let st := (rollout actorNet imagineNet horisonLength init).1.getD t init
  reward (st.1 b) (st.2 b)

/-- The target-critic value matrix of `Explorer.train`, evaluated (under
`no_grad`) on the stored imagined states with the target critic's
parameters. -/
def targetValuesMatrix
    (actorNet : (Fin B → ζ) → (Fin B → η) → (Fin B → α) × (Fin B → ℚ) × (Fin B → ℚ))
    (imagineNet : (Fin B → α) → (Fin B → ζ) → (Fin B → η) → (Fin B → η) × (Fin B → ζ))
    (criticNet : P → ζ → η → ℚ) (s : ExplorerState P)
    (horisonLength : ℕ) (init : (Fin B → ζ) × (Fin B → η))
    (t : Fin horisonLength) (b : Fin B) : ℚ :=
  let st := (rollout actorNet imagineNet horisonLength init).1.getD t init
  criticNet s.targetCriticParams (st.1 b) (st.2 b)

/-- The stored `imagined_action_log_probs` as a matrix. -/
def logProbMatrix
    (actorNet : (Fin B → ζ) → (Fin B → η) → (Fin B → α) × (Fin B → ℚ) × (Fin B → ℚ))
    (imagineNet : (Fin B → α) → (Fin B → ζ) → (Fin B → η) → (Fin B → η) × (Fin B → ζ))
    (horisonLength : ℕ) (init : (Fin B → ζ) × (Fin B → η))
    (t : Fin horisonLength) (b : Fin B) : ℚ :=
  ((rollout actorNet imagineNet horisonLength init).2.getD t (fun _ => 0, fun _ => 0)).1 b

/-- The stored `imagined_action_entropys` as a matrix. -/
def entropyMatrix
    (actorNet : (Fin B → ζ) → (Fin B → η) → (Fin B → α) × (Fin B → ℚ) × (Fin B → ℚ))
    (imagineNet : (Fin B → α) → (Fin B → ζ) → (Fin B → η) → (Fin B → η) × (Fin B → ζ))
    (horisonLength : ℕ) (init : (Fin B → ζ) × (Fin B → η))
    (t : Fin horisonLength) (b : Fin B) : ℚ :=
  ((rollout actorNet imagineNet horisonLength init).2.getD t (fun _ => 0, fun _ => 0)).2 b

/-- The online critic's value-mean matrix, evaluated on the (detached)
stored imagined states with the online critic's parameters. -/
def valueMeanMatrix
    (actorNet : (Fin B → ζ) → (Fin B → η) → (Fin B → α) × (Fin B → ℚ) × (Fin B → ℚ))
    (imagineNet : (Fin B → α) → (Fin B → ζ) → (Fin B → η) → (Fin B → η) × (Fin B → ζ))
    (criticNet : P → ζ → η → ℚ) (s : ExplorerState P)
    (horisonLength : ℕ) (init : (Fin B → ζ) × (Fin B → η))
    (t : Fin horisonLength) (b : Fin B) : ℚ :=
  let st := (rollout actorNet imagineNet horisonLength init).1.getD t init
  criticNet s.criticParams (st.1 b) (st.2 b)

/-- `Explorer.train`: imagination rollout, intrinsic rewards and
target-critic values on the flattened states, λ-return targets via the
external `compute_lambda_target` utility (abstracted as `lam`), the actor
loss `-Σ_t mean_b(logπ · (target − v_target) + η_scale · H)`, and the
critic loss as the negative mean log-probability of the λ-target under
`Independent(Normal(value_mean, 1), 1)` (the additive normalisation
constant `log √(2π)` of that density is carried as the abstract parameter
`logSqrt2Pi`).  The explorer's parameter state is returned unchanged:
`train` only computes losses. -/
def explorerTrain
    (actorNet : (Fin B → ζ) → (Fin B → η) → (Fin B → α) × (Fin B → ℚ) × (Fin B → ℚ))
    (imagineNet : (Fin B → α) → (Fin B → ζ) → (Fin B → η) → (Fin B → η) × (Fin B → ζ))
    (reward : ζ → η → ℚ) (criticNet : P → ζ → η → ℚ) (horisonLength : ℕ)
    (lam : (Fin horisonLength → Fin B → ℚ) → ℚ →
      (Fin horisonLength → Fin B → ℚ) → ℚ → (Fin horisonLength → Fin B → ℚ))
    (discount lambda entropyScale logSqrt2Pi : ℚ)
    (s : ExplorerState P) (init : (Fin B → ζ) × (Fin B → η)) :
    (ℚ × ℚ) × ExplorerState P :=
  let tv := targetValuesMatrix actorNet imagineNet criticNet s horisonLength init
  let tgt := lam (rewardsMatrix actorNet imagineNet reward horisonLength init)
    discount tv lambda
  let lp := logProbMatrix actorNet imagineNet horisonLength init
  let ent := entropyMatrix actorNet imagineNet horisonLength init
  let actorLoss : ℚ := -(∑ t, (∑ b, (lp t b * (tgt t b - tv t b) +
    entropyScale * ent t b)) / (B : ℚ))
  let vm := valueMeanMatrix actorNet imagineNet criticNet s horisonLength init
  let criticLoss : ℚ :=
    -((∑ t, ∑ b, (-(tgt t b - vm t b) ^ 2 / 2 - logSqrt2Pi)) / (horisonLength : ℚ))
  ((actorLoss, criticLoss), s)

end Train

end Explorer

open AchieverReward Explorer

/-! ## Concrete fixtures used to instantiate theorems on closed inputs -/

/-- A concrete deterministic `TrainOracle`: every positive selection is
index `0`, every negative current draw is `(0, 0)`, goal times are `0`,
and `pick` takes the head of the candidate list (`none` on the empty
list, where `np.random.choice` raises). -/
def headOracle : AchieverReward.TrainOracle where
  posSel := fun _ => 0
  negCur := fun _ => (0, 0)
  negGoalTime := fun _ => 0
  pick := List.head?

/-- A concrete actor network on a batch of one: action `z + h`,
log-probability `z`, entropy `h`. -/
def actorW : (Fin 1 → ℚ) → (Fin 1 → ℚ) → (Fin 1 → ℚ) × (Fin 1 → ℚ) × (Fin 1 → ℚ) :=
  fun z h => (fun b => z b + h b, z, h)

/-- A concrete imagination transition on a batch of one, returning
`(new_h, new_z)` as the world model does. -/
def imagineW : (Fin 1 → ℚ) → (Fin 1 → ℚ) → (Fin 1 → ℚ) → (Fin 1 → ℚ) × (Fin 1 → ℚ) :=
  fun a z _h => (fun b => z b + 1, fun b => a b)

/-- A concrete initial latent batch. -/
def initW : (Fin 1 → ℚ) × (Fin 1 → ℚ) := (fun _ => 1, fun _ => 2)

/-! ## Claim theorems -/

/-- `headOracle.pick` only ever returns a member of its argument list,
as `np.random.choice` does. -/
theorem headOracle_pick_mem :
    ∀ (l : List ℕ) (x : ℕ), headOracle.pick l = some x → x ∈ l := by
  intro l x h
  cases l with
  | nil => simp [headOracle] at h
  | cons a as =>
    have ha : a = x := by simpa [headOracle] using h
    simp [← ha]

/-- C8: `TemporalLatentDistanceReward.compute_reward` returns exactly the
negation of the distance estimator's prediction on (embedding of `(z,h)`,
`goal_emb`); `imagine_compute_reward` returns the negation of the
estimator's prediction on the two embedded latent states; whenever the
estimator outputs a non-negative distance the reward is `≤ 0`. -/
theorem temporal_reward_is_negated_distance {Z H E : Type}
    (state2emb : Z → H → E) (est : E → E → ℚ) (z gz : Z) (h gh : H)
    (goalEmb : E) :
    temporalComputeReward state2emb est z h goalEmb =
      -(est (state2emb z h) goalEmb) ∧
    temporalImagineComputeReward state2emb est z gz h gh =
      -(est (state2emb z h) (state2emb gz gh)) ∧
    (0 ≤ est (state2emb z h) goalEmb →
      temporalComputeReward state2emb est z h goalEmb ≤ 0) ∧
    (0 ≤ est (state2emb z h) (state2emb gz gh) →
      temporalImagineComputeReward state2emb est z gz h gh ≤ 0) := by
  refine ⟨rfl, rfl, fun h0 => ?_, fun h0 => ?_⟩ <;>
    simpa [temporalComputeReward, temporalImagineComputeReward] using
      neg_nonpos.mpr h0

/-- Witness for C8 at a concrete estimator with non-negative output. -/
theorem temporal_reward_is_negated_distance_witness :
    (0 : ℚ) ≤ (fun _ _ => (1 : ℚ)) ((fun (a b : ℚ) => a + b) 2 3) 4 ∧
    temporalComputeReward (fun (a b : ℚ) => a + b) (fun _ _ => (1 : ℚ))
      2 3 4 ≤ 0 :=
  ⟨by norm_num,
    (temporal_reward_is_negated_distance (fun a b => a + b)
      (fun _ _ => (1 : ℚ)) 2 2 3 3 4).2.2.1 (by norm_num)⟩

/-- C9: `CosineLatentDistanceReward.train` returns the constant `0` for
every argument list; in this pure embedding it can have no side effect. -/
theorem cosine_train_is_noop {α : Type} (args : List α) :
    cosineTrain args = 0 := rfl

/-- C10: `CosineLatentDistanceReward.compute_reward` never reads the
caller-supplied `h`: the recurrent state fed to the posterior is a fresh
zero tensor, so any two values of `h` give the identical reward. -/
theorem cosine_reward_independent_of_h (post : List ℚ → List ℚ → List ℚ)
    (hDim : ℕ) (z goalEmb h1 h2 : List ℚ) :
    cosineComputeReward post hDim z h1 goalEmb =
      cosineComputeReward post hDim z h2 goalEmb := rfl

/-- C5: `Explorer.update_critic` copies the online critic's parameters
into the target critic unconditionally and exactly (no averaging, the
online critic itself untouched), and `Explorer.train` returns the
parameter state unchanged: between `update_critic` calls the target critic
is only read, never written. -/
theorem target_critic_hard_sync_and_isolation {P ζ η α : Type} {B : ℕ}
    (actorNet : (Fin B → ζ) → (Fin B → η) → (Fin B → α) × (Fin B → ℚ) × (Fin B → ℚ))
    (imagineNet : (Fin B → α) → (Fin B → ζ) → (Fin B → η) → (Fin B → η) × (Fin B → ζ))
    (reward : ζ → η → ℚ) (criticNet : P → ζ → η → ℚ) (horisonLength : ℕ)
    (lam : (Fin horisonLength → Fin B → ℚ) → ℚ →
      (Fin horisonLength → Fin B → ℚ) → ℚ → (Fin horisonLength → Fin B → ℚ))
    (discount lambda entropyScale logSqrt2Pi : ℚ)
    (s : ExplorerState P) (init : (Fin B → ζ) × (Fin B → η)) :
    (updateCritic s).targetCriticParams = s.criticParams ∧
    (updateCritic s).criticParams = s.criticParams ∧
    (explorerTrain actorNet imagineNet reward criticNet horisonLength lam
      discount lambda entropyScale logSqrt2Pi s init).2 = s :=
  ⟨rfl, rfl, rfl⟩

/-- C4: the actor loss returned by `Explorer.train` equals the negated
batch-mean of the per-trajectory sum over timesteps of
`logπ(aₜ) · (λ-target)ₜ − V_targetₜ) + entropy_scale · H(aₜ)`, where the
λ-target is the external utility `lam` applied to
`(rewards, discount, target-critic values, λ)`. -/
theorem actor_loss_is_negated_batch_mean {P ζ η α : Type} {B : ℕ}
    (actorNet : (Fin B → ζ) → (Fin B → η) → (Fin B → α) × (Fin B → ℚ) × (Fin B → ℚ))
    (imagineNet : (Fin B → α) → (Fin B → ζ) → (Fin B → η) → (Fin B → η) × (Fin B → ζ))
    (reward : ζ → η → ℚ) (criticNet : P → ζ → η → ℚ) (horisonLength : ℕ)
    (lam : (Fin horisonLength → Fin B → ℚ) → ℚ →
      (Fin horisonLength → Fin B → ℚ) → ℚ → (Fin horisonLength → Fin B → ℚ))
    (discount lambda entropyScale logSqrt2Pi : ℚ)
    (s : ExplorerState P) (init : (Fin B → ζ) × (Fin B → η)) :
    (explorerTrain actorNet imagineNet reward criticNet horisonLength lam
        discount lambda entropyScale logSqrt2Pi s init).1.1 =
      -((∑ b : Fin B, ∑ t : Fin horisonLength,
          (logProbMatrix actorNet imagineNet horisonLength init t b *
            (lam (rewardsMatrix actorNet imagineNet reward horisonLength init)
                discount
                (targetValuesMatrix actorNet imagineNet criticNet s
                  horisonLength init) lambda t b -
              targetValuesMatrix actorNet imagineNet criticNet s horisonLength
                init t b) +
            entropyScale * entropyMatrix actorNet imagineNet horisonLength
              init t b)) / (B : ℚ)) := by
  simp only [explorerTrain]
  rw [← Finset.sum_div, Finset.sum_comm]

/-- Membership in the enumeration produced by `get_future_goal_idxs`. -/
theorem mem_getFutureGoalIdxs_iff {H B : ℕ} (p : (ℕ × ℕ) × (ℕ × ℕ)) :
    p ∈ getFutureGoalIdxs H B ↔
      ∃ c g b, c ≤ g ∧ g < H ∧ b < B ∧ p = ((c, b), (g, b)) := by
  simp only [getFutureGoalIdxs, List.mem_flatMap, List.mem_map, List.mem_range,
    List.mem_range'_1]
  constructor
  · rintro ⟨c, hc, g, ⟨hcg, hg⟩, b, hb, rfl⟩
    exact ⟨c, g, b, hcg, by omega, hb, rfl⟩
  · rintro ⟨c, g, b, hcg, hg, hb, rfl⟩
    exact ⟨c, by omega, g, ⟨hcg, by omega⟩, b, hb, rfl⟩

/-- C1: `get_future_goal_idxs` enumerates exactly the pairs
`((c, b), (g, b))` with `c ≤ g < horizon` and `b < batch_size`; the
sampled positive pairs are read off that enumeration at the drawn
indices; every enumerated pair's regression target is
`(goal time − current time) / horizon_length ∈ [0, 1]`; and for `i ≤ j ≤ k`
the target of `(i, k)` is `(k − i)/horizon_length` and dominates the
target of `(i, j)`. -/
theorem positive_pairs_enumeration_targets_monotone (H B : ℕ)
    (o : AchieverReward.TrainOracle) :
    (∀ p : (ℕ × ℕ) × (ℕ × ℕ), p ∈ getFutureGoalIdxs H B ↔
      ∃ c g b, c ≤ g ∧ g < H ∧ b < B ∧ p = ((c, b), (g, b))) ∧
    (∀ numPositives i, i < numPositives →
      o.posSel i < (getFutureGoalIdxs H B).length →
      (trainPositives o H B numPositives).get? i =
        some ((getFutureGoalIdxs H B).getD (o.posSel i) ((0, 0), (0, 0))) ∧
      (getFutureGoalIdxs H B).getD (o.posSel i) ((0, 0), (0, 0)) ∈
        getFutureGoalIdxs H B) ∧
    (∀ p ∈ getFutureGoalIdxs H B,
      targetDistance H p.1.1 p.2.1 = ((p.2.1 : ℚ) - (p.1.1 : ℚ)) / (H : ℚ) ∧
      0 ≤ targetDistance H p.1.1 p.2.1 ∧ targetDistance H p.1.1 p.2.1 ≤ 1) ∧
    (∀ i j k : ℕ, i ≤ j → j ≤ k →
      targetDistance H i k = ((k : ℚ) - (i : ℚ)) / (H : ℚ) ∧
      targetDistance H i j ≤ targetDistance H i k) := by
  refine ⟨fun p => mem_getFutureGoalIdxs_iff p, ?_, ?_, ?_⟩
  · intro numPositives i hi hsel
    constructor
    · simp [trainPositives, List.get?_map, List.get?_range, hi]
    · rw [List.getD_eq_get _ _ hsel]
      exact List.get_mem _ _ _
  · intro p hp
    obtain ⟨c, g, b, hcg, hg, hb, rfl⟩ := (mem_getFutureGoalIdxs_iff p).mp hp
    have hHpos : 0 < H := by omega
    have hHQ : (0 : ℚ) < (H : ℚ) := by exact_mod_cast hHpos
    have hc : (c : ℚ) ≤ (g : ℚ) := by exact_mod_cast hcg
    have h1 : (g : ℚ) < (H : ℚ) := by exact_mod_cast hg
    have h2 : (0 : ℚ) ≤ (c : ℚ) := Nat.cast_nonneg c
    refine ⟨rfl, ?_, ?_⟩ <;> simp only [targetDistance]
    · apply div_nonneg _ hHQ.le
      linarith
    · rw [div_le_one hHQ]
      linarith
  · intro i j k hij hjk
    have hc : (j : ℚ) ≤ (k : ℚ) := by exact_mod_cast hjk
    refine ⟨rfl, ?_⟩
    unfold targetDistance
    gcongr

/-- Witness for C1: at `horizon = 2`, `batch_size = 1`, the enumerated
pair `((0,0),(1,0))` has its target in `[0, 1]`. -/
theorem positive_pairs_enumeration_targets_monotone_witness :
    ((0, 0), (1, 0)) ∈ getFutureGoalIdxs 2 1 ∧
    0 ≤ targetDistance 2 0 1 ∧ targetDistance 2 0 1 ≤ 1 :=
  ⟨by decide,
    ((positive_pairs_enumeration_targets_monotone 2 1 headOracle).2.2.1
      ((0, 0), (1, 0)) (by decide)).2⟩

/-- If the per-row goal-batch re-draw always returns a candidate (as
`np.random.choice` does on a non-empty list), then a successful
`get_future_goal_idxs_neg_sampling` run yields one pair per requested row
and every pair crosses episodes: the goal and current batch indices have
different quotients by `batch_length`. -/
theorem negSampleAux_ok_spec (o : AchieverReward.TrainOracle) (bs bl : ℕ)
    (hpick : ∀ l x, o.pick l = some x → x ∈ l) :
    ∀ (idxs : List ℕ) (r : List ((ℕ × ℕ) × (ℕ × ℕ))),
      negSampleAux o bs bl idxs = .ok r →
      r.length = idxs.length ∧ ∀ p ∈ r, p.2.2 / bl ≠ p.1.2 / bl := by
  intro idxs
  induction idxs with
  | nil =>
    intro r hr
    simp only [negSampleAux] at hr
    cases hr
    simp
  | cons i rest ih =>
    intro r hr
    simp only [negSampleAux] at hr
    cases hp : o.pick (negCandidates bs bl (o.negCur i).2) with
    | none => rw [hp] at hr; exact absurd hr (by simp)
    | some gb =>
      rw [hp] at hr
      cases hrec : negSampleAux o bs bl rest with
      | error e => rw [hrec] at hr; simp [Except.map] at hr
      | ok l =>
        rw [hrec] at hr
        simp only [Except.map, Except.ok.injEq] at hr
        subst hr
        obtain ⟨hl, hmem⟩ := ih l hrec
        refine ⟨by simp [hl], ?_⟩
        intro p hp'
        rcases List.mem_cons.mp hp' with hp0 | hp1
        · subst hp0
          have hcand := hpick _ _ hp
          simp only [negCandidates, List.mem_filter, List.mem_range,
            decide_eq_true_eq] at hcand
          exact hcand.2
        · exact hmem p hp1

/-- C2: whenever `TemporalLatentDistanceReward.train`'s negative sampling
succeeds, it draws exactly `int(num_positives * neg_sampling_factor)`
pairs, every drawn pair's goal batch index lies in a different episode
(different quotient by `batch_length`) from its current batch index, the
negative regression target is the constant‑one vector, and the returned
loss is the positive-pair MSE plus the negative-pair MSE. -/
theorem negative_pairs_cross_episode_and_loss {E : Type} (emb : ℕ × ℕ → E)
    (est : E → E → ℚ) (o : AchieverReward.TrainOracle)
    (H B bl numPositives : ℕ) (factor : ℚ)
    (hpick : ∀ l x, o.pick l = some x → x ∈ l)
    (negs : List ((ℕ × ℕ) × (ℕ × ℕ)))
    (hok : negSample o ((intTrunc ((numPositives : ℚ) * factor)).toNat) B bl =
      .ok negs) :
    negs.length = (intTrunc ((numPositives : ℚ) * factor)).toNat ∧
    (∀ p ∈ negs, p.2.2 / bl ≠ p.1.2 / bl) ∧
    trainResult emb est o H B bl numPositives factor =
      .ok (posLoss emb est o H B numPositives +
        mseLoss (negs.map fun p => est (emb p.1) (emb p.2))
          (List.replicate negs.length 1)) := by
  obtain ⟨hlen, hmem⟩ := negSampleAux_ok_spec o B bl hpick _ negs hok
  refine ⟨by simpa using hlen, hmem, ?_⟩
  simp only [trainResult]
  rw [hok]

/-- Witness for C2 with the concrete `headOracle` at `batch_size = 4`,
`batch_length = 2`, `num_positives = 2`, `neg_sampling_factor = 1`. -/
theorem negative_pairs_cross_episode_and_loss_witness :
    ([((0, 0), (0, 2)), ((0, 0), (0, 2))] :
        List ((ℕ × ℕ) × (ℕ × ℕ))).length =
      (intTrunc ((2 : ℚ) * 1)).toNat :=
  (negative_pairs_cross_episode_and_loss (fun _ => (0 : ℚ))
    (fun _ _ => (0 : ℚ)) headOracle 3 4 2 2 1 headOracle_pick_mem
    [((0, 0), (0, 2)), ((0, 0), (0, 2))]
    (by have hn : (intTrunc (((2 : ℕ) : ℚ) * 1)).toNat = 2 := by
          norm_num [intTrunc]
          decide
        rw [hn]
        rfl)).1

/-- C6 counterexample: with `batch_size = 2`, `batch_length = 2` every
batch index has episode quotient `0`, so the candidate list is empty; the
positive phase still computes a loss (here `0`), and `train` fails only
afterwards, with the error arising at iteration `0` *inside* the
negative-sampling loop (`np.random.choice` on an empty list) — not from
any validation performed before the contrastive step. -/
theorem neg_sampling_no_prevalidation_counterexample :
    negCandidates 2 2 0 = [] ∧
    posLoss (fun _ => (0 : ℚ)) (fun _ _ => (0 : ℚ)) headOracle 3 2 1 = 0 ∧
    trainResult (fun _ => (0 : ℚ)) (fun _ _ => (0 : ℚ)) headOracle 3 2 2 1 1 =
      .error 0 := by
  have hpairs : trainPositives headOracle 3 2 1 = [((0, 0), (0, 0))] := by decide
  refine ⟨by decide, ?_, ?_⟩
  · norm_num [posLoss, hpairs, mseLoss, targetDistance]
  · have hn : (intTrunc (((1 : ℕ) : ℚ) * 1)).toNat = 1 := by
      norm_num [intTrunc]
    have hns : negSample headOracle 1 2 2 = .error 0 := rfl
    simp only [trainResult, hn, hns]

/-- C6 (amended): when every batch index shares one episode quotient, the
candidate list of the first negative-sampling iteration is empty and
`TemporalLatentDistanceReward.train` fails there, mid-computation, with
the error reported from iteration `0` of the negative-sampling loop — no
validation runs before the contrastive step. -/
theorem neg_sampling_empty_candidates_error_in_loop {E : Type}
    (emb : ℕ × ℕ → E) (est : E → E → ℚ) (o : AchieverReward.TrainOracle)
    (H B bl numPositives : ℕ) (factor : ℚ)
    (hn : 0 < (intTrunc ((numPositives : ℚ) * factor)).toNat)
    (hfail : o.pick [] = none)
    (hcur : (o.negCur 0).2 < B)
    (hq : ∀ j1 j2, j1 < B → j2 < B → j1 / bl = j2 / bl) :
    trainResult emb est o H B bl numPositives factor = .error 0 := by
  have hempty : negCandidates B bl (o.negCur 0).2 = [] := by
    simp only [negCandidates, List.filter_eq_nil_iff, List.mem_range,
      decide_eq_true_eq]
    intro a ha
    simp [hq a (o.negCur 0).2 ha hcur]
  obtain ⟨m, hm⟩ : ∃ m, (intTrunc ((numPositives : ℚ) * factor)).toNat = m + 1 :=
    ⟨(intTrunc ((numPositives : ℚ) * factor)).toNat - 1, by omega⟩
  simp only [trainResult, negSample, hm, List.range_succ_eq_map]
  simp [negSampleAux, hempty, hfail]

/-- Witness for the amended C6 at `batch_size = 2`, `batch_length = 2`,
`num_positives = 1`, `neg_sampling_factor = 1`. -/
theorem neg_sampling_empty_candidates_error_in_loop_witness :
    0 < (intTrunc (((1 : ℕ) : ℚ) * 1)).toNat ∧
    trainResult (fun _ => (1 : ℚ)) (fun _ _ => (1 : ℚ)) headOracle 4 2 2 1 1 =
      .error 0 := by
  have hn : 0 < (intTrunc (((1 : ℕ) : ℚ) * 1)).toNat := by
    norm_num [intTrunc]
  exact ⟨hn,
    neg_sampling_empty_candidates_error_in_loop (fun _ => (1 : ℚ))
      (fun _ _ => (1 : ℚ)) headOracle 4 2 2 1 1 hn rfl (by decide)
      (fun j1 j2 h1 h2 => by omega)⟩

/-- Both lists recorded by the imagination loop have one entry per
horizon step. -/
theorem rolloutAux_length {B : ℕ} {ζ η α : Type}
    (actorNet : (Fin B → ζ) → (Fin B → η) → (Fin B → α) × (Fin B → ℚ) × (Fin B → ℚ))
    (imagineNet : (Fin B → α) → (Fin B → ζ) → (Fin B → η) → (Fin B → η) × (Fin B → ζ))
    (horisonLength : ℕ) (s0 : (Fin B → ζ) × (Fin B → η)) :
    (rolloutAux actorNet imagineNet horisonLength s0).1.length = horisonLength ∧
    (rolloutAux actorNet imagineNet horisonLength s0).2.length = horisonLength := by
  induction horisonLength generalizing s0 with
  | zero => simp [rolloutAux]
  | succ n ih => simp [rolloutAux, ih]

/-- Shifting the start of the iterated transition by one step. -/
theorem stateAt_rolloutStep {B : ℕ} {ζ η α : Type}
    (actorNet : (Fin B → ζ) → (Fin B → η) → (Fin B → α) × (Fin B → ℚ) × (Fin B → ℚ))
    (imagineNet : (Fin B → α) → (Fin B → ζ) → (Fin B → η) → (Fin B → η) × (Fin B → ζ))
    (s0 : (Fin B → ζ) × (Fin B → η)) (t : ℕ) :
    stateAt actorNet imagineNet (rolloutStep actorNet imagineNet s0) t =
      stateAt actorNet imagineNet s0 (t + 1) := by
  induction t with
  | zero => rfl
  | succ n ih => simp only [stateAt, ih]

/-- Entry `t` of the recorded state list is the post-transition state of
loop iteration `t`; entry `t` of the recorded log-probability/entropy list
is the actor's output on the pre-transition state of iteration `t`. -/
theorem rolloutAux_get {B : ℕ} {ζ η α : Type}
    (actorNet : (Fin B → ζ) → (Fin B → η) → (Fin B → α) × (Fin B → ℚ) × (Fin B → ℚ))
    (imagineNet : (Fin B → α) → (Fin B → ζ) → (Fin B → η) → (Fin B → η) × (Fin B → ζ)) :
    ∀ (horisonLength t : ℕ) (s0 : (Fin B → ζ) × (Fin B → η)),
      t < horisonLength →
      (rolloutAux actorNet imagineNet horisonLength s0).1.get? t =
        some (stateAt actorNet imagineNet s0 (t + 1)) ∧
      (rolloutAux actorNet imagineNet horisonLength s0).2.get? t =
        some (actorLogEnt actorNet (stateAt actorNet imagineNet s0 t)) := by
  intro horisonLength
  induction horisonLength with
  | zero => intro t s0 ht; omega
  | succ n ih =>
    intro t s0 ht
    cases t with
    | zero => exact ⟨rfl, rfl⟩
    | succ m =>
      have hm : m < n := by omega
      have hrec := ih m (rolloutStep actorNet imagineNet s0) hm
      have e1 : (rolloutAux actorNet imagineNet (n + 1) s0).1.get? (m + 1) =
          (rolloutAux actorNet imagineNet n
            (rolloutStep actorNet imagineNet s0)).1.get? m := rfl
      have e2 : (rolloutAux actorNet imagineNet (n + 1) s0).2.get? (m + 1) =
          (rolloutAux actorNet imagineNet n
            (rolloutStep actorNet imagineNet s0)).2.get? m := rfl
      constructor
      · rw [e1, hrec.1, stateAt_rolloutStep]
      · rw [e2, hrec.2, stateAt_rolloutStep]

/-- C3: during `Explorer.train`'s imagination rollout of horizon `H` over
a batch of `B` starting states, the recorded latent-state and
log-probability/entropy tensors have leading length `H` (each entry a
`B`-indexed family, i.e. leading shape `(H, B, …)`); the state stored at
index `t` is the post-transition state produced by the `imagine` step of
iteration `t`, and the log-probability/entropy stored at index `t` is the
actor's output on the pre-transition state of iteration `t`. -/
theorem rollout_stores_post_state_and_pre_logprob {B : ℕ} {ζ η α : Type}
    (actorNet : (Fin B → ζ) → (Fin B → η) → (Fin B → α) × (Fin B → ℚ) × (Fin B → ℚ))
    (imagineNet : (Fin B → α) → (Fin B → ζ) → (Fin B → η) → (Fin B → η) × (Fin B → ζ))
    (init : (Fin B → ζ) × (Fin B → η)) (horisonLength t : ℕ)
    (ht : t < horisonLength) :
    (rollout actorNet imagineNet horisonLength init).1.length = horisonLength ∧
    (rollout actorNet imagineNet horisonLength init).2.length = horisonLength ∧
    (rollout actorNet imagineNet horisonLength init).1.get? t =
      some (stateAt actorNet imagineNet init (t + 1)) ∧
    (rollout actorNet imagineNet horisonLength init).2.get? t =
      some (actorLogEnt actorNet (stateAt actorNet imagineNet init t)) :=
  ⟨(rolloutAux_length actorNet imagineNet horisonLength init).1,
    (rolloutAux_length actorNet imagineNet horisonLength init).2,
    (rolloutAux_get actorNet imagineNet horisonLength t init ht).1,
    (rolloutAux_get actorNet imagineNet horisonLength t init ht).2⟩

/-- Witness for C3 on the concrete one-element-batch networks with
horizon `2`, index `t = 1`. -/
theorem rollout_stores_post_state_and_pre_logprob_witness :
    (1 < 2) ∧
    ((rollout actorW imagineW 2 initW).1.length = 2 ∧
      (rollout actorW imagineW 2 initW).2.length = 2 ∧
      (rollout actorW imagineW 2 initW).1.get? 1 =
        some (stateAt actorW imagineW initW 2) ∧
      (rollout actorW imagineW 2 initW).2.get? 1 =
        some (actorLogEnt actorW (stateAt actorW imagineW initW 1))) :=
  ⟨by decide,
    rollout_stores_post_state_and_pre_logprob actorW imagineW initW 2 1
      (by decide)⟩

/-- The list dot product as a finite sum over positions, for any bound
covering both lengths. -/
theorem dot_eq_sum_getD :
    ∀ (a b : List ℚ) (N : ℕ), a.length ≤ N → b.length ≤ N →
      dot a b = ∑ i ∈ Finset.range N, a.getD i 0 * b.getD i 0 := by
  intro a
  induction a with
  | nil =>
    intro b N _ _
    simp [dot]
  | cons x xs ih =>
    intro b N hx hb
    cases b with
    | nil => simp [dot]
    | cons y ys =>
      cases N with
      | zero => simp at hx
      | succ M =>
        rw [Finset.sum_range_succ']
        simp only [List.getD_cons_succ, List.getD_cons_zero]
        rw [← ih ys M (by simpa using hx) (by simpa using hb)]
        simp only [dot]
        ring

/-- A sum of squares is non-negative. -/
theorem sumSq_nonneg (a : List ℚ) : 0 ≤ sumSq a := by
  rw [sumSq, dot_eq_sum_getD a a a.length le_rfl le_rfl]
  exact Finset.sum_nonneg fun i _ => mul_self_nonneg _

/-- Cauchy–Schwarz for the list dot product. -/
theorem dot_sq_le_sumSq_mul_sumSq (a b : List ℚ) :
    (dot a b) ^ 2 ≤ sumSq a * sumSq b := by
  rw [sumSq, sumSq,
    dot_eq_sum_getD a b (max a.length b.length) (le_max_left _ _) (le_max_right _ _),
    dot_eq_sum_getD a a (max a.length b.length) (le_max_left _ _) (le_max_left _ _),
    dot_eq_sum_getD b b (max a.length b.length) (le_max_right _ _) (le_max_right _ _)]
  simpa [pow_two] using
    Finset.sum_mul_sq_le_sq_mul_sq (Finset.range (max a.length b.length))
      (fun i => a.getD i 0) (fun i => b.getD i 0)

/-- The epsilon-guarded cosine ratio lies in `[-1, 1]`. -/
theorem cosine_ratio_abs_le_one (a b : List ℚ) :
    |((dot a b : ℚ) : ℝ) /
        (Real.sqrt ((sumSq a : ℚ) : ℝ) * Real.sqrt ((sumSq b : ℚ) : ℝ) + 1e-8)| ≤ 1 := by
  have hSa : (0 : ℝ) ≤ ((sumSq a : ℚ) : ℝ) := by exact_mod_cast sumSq_nonneg a
  have hSb : (0 : ℝ) ≤ ((sumSq b : ℚ) : ℝ) := by exact_mod_cast sumSq_nonneg b
  have hden : (0 : ℝ) <
      Real.sqrt ((sumSq a : ℚ) : ℝ) * Real.sqrt ((sumSq b : ℚ) : ℝ) + 1e-8 := by
    positivity
  have hCS : |((dot a b : ℚ) : ℝ)| ≤
      Real.sqrt ((sumSq a : ℚ) : ℝ) * Real.sqrt ((sumSq b : ℚ) : ℝ) := by
    have h1 : (((dot a b : ℚ) : ℝ)) ^ 2 ≤
        ((sumSq a : ℚ) : ℝ) * ((sumSq b : ℚ) : ℝ) := by
      exact_mod_cast dot_sq_le_sumSq_mul_sumSq a b
    calc |((dot a b : ℚ) : ℝ)|
        = Real.sqrt (((dot a b : ℚ) : ℝ) ^ 2) := (Real.sqrt_sq_eq_abs _).symm
      _ ≤ Real.sqrt (((sumSq a : ℚ) : ℝ) * ((sumSq b : ℚ) : ℝ)) :=
          Real.sqrt_le_sqrt h1
      _ = Real.sqrt ((sumSq a : ℚ) : ℝ) * Real.sqrt ((sumSq b : ℚ) : ℝ) :=
          Real.sqrt_mul hSa _
  rw [abs_div, abs_of_pos hden, div_le_one hden]
  calc |((dot a b : ℚ) : ℝ)|
      ≤ Real.sqrt ((sumSq a : ℚ) : ℝ) * Real.sqrt ((sumSq b : ℚ) : ℝ) := hCS
    _ ≤ Real.sqrt ((sumSq a : ℚ) : ℝ) * Real.sqrt ((sumSq b : ℚ) : ℝ) + 1e-8 := by
        norm_num

/-- When both sides coincide and the squared norm is at least `1`, the
epsilon-guarded cosine ratio is within `1e-8` of `1`. -/
theorem cosine_ratio_self (a : List ℚ) (h1 : (1 : ℚ) ≤ sumSq a) :
    1 - ((dot a a : ℚ) : ℝ) /
        (Real.sqrt ((sumSq a : ℚ) : ℝ) * Real.sqrt ((sumSq a : ℚ) : ℝ) + 1e-8) ≤
      1e-8 := by
  have hS1 : (1 : ℝ) ≤ ((sumSq a : ℚ) : ℝ) := by exact_mod_cast h1
  have hSa : (0 : ℝ) ≤ ((sumSq a : ℚ) : ℝ) := by linarith
  have hd : ((dot a a : ℚ) : ℝ) = ((sumSq a : ℚ) : ℝ) := by
    norm_cast
  rw [hd, Real.mul_self_sqrt hSa]
  have hpos : (0 : ℝ) < ((sumSq a : ℚ) : ℝ) + 1e-8 := by linarith
  have heq : 1 - ((sumSq a : ℚ) : ℝ) / (((sumSq a : ℚ) : ℝ) + 1e-8) =
      (1e-8 : ℝ) / (((sumSq a : ℚ) : ℝ) + 1e-8) := by
    field_simp
  rw [heq]
  exact div_le_self (by norm_num) (by linarith)

/-- C7: `CosineLatentDistanceReward.compute_reward` decodes the goal
embedding through the posterior from a zero recurrent state and returns
`dot(z, g) / (‖z‖·‖g‖ + 1e-8)`; the denominator is strictly positive (so
zero-norm inputs cannot raise), the output always lies in `[-1, 1]`, and
when the current latent equals the decoded goal latent and is
non-degenerate (`‖z‖² ≥ 1`) the output is within `1e-8` of `1`. -/
theorem cosine_reward_decodes_and_is_bounded
    (post : List ℚ → List ℚ → List ℚ) (hDim : ℕ) (z h goalEmb : List ℚ) :
    cosineComputeReward post hDim z h goalEmb =
      ((dot z (post (List.replicate hDim 0) goalEmb) : ℚ) : ℝ) /
        (Real.sqrt ((sumSq z : ℚ) : ℝ) *
          Real.sqrt ((sumSq (post (List.replicate hDim 0) goalEmb) : ℚ) : ℝ) +
          1e-8) ∧
    0 < Real.sqrt ((sumSq z : ℚ) : ℝ) *
        Real.sqrt ((sumSq (post (List.replicate hDim 0) goalEmb) : ℚ) : ℝ) +
        1e-8 ∧
    -1 ≤ cosineComputeReward post hDim z h goalEmb ∧
    cosineComputeReward post hDim z h goalEmb ≤ 1 ∧
    (z = post (List.replicate hDim 0) goalEmb → (1 : ℚ) ≤ sumSq z →
      1 - cosineComputeReward post hDim z h goalEmb ≤ 1e-8) := by
  have hrw : cosineComputeReward post hDim z h goalEmb =
      ((dot z (post (List.replicate hDim 0) goalEmb) : ℚ) : ℝ) /
        (Real.sqrt ((sumSq z : ℚ) : ℝ) *
          Real.sqrt ((sumSq (post (List.replicate hDim 0) goalEmb) : ℚ) : ℝ) +
          1e-8) := rfl
  have habs := cosine_ratio_abs_le_one z (post (List.replicate hDim 0) goalEmb)
  have hbounds := abs_le.mp habs
  refine ⟨hrw, by positivity, by rw [hrw]; exact hbounds.1,
    by rw [hrw]; exact hbounds.2, ?_⟩
  intro hzg h1
  rw [hrw, ← hzg]
  exact cosine_ratio_self z h1

/-- Witness for C7: identity posterior, `z = goal latent = [1]`. -/
theorem cosine_reward_decodes_and_is_bounded_witness :
    ([1] : List ℚ) = (fun _ g => g) (List.replicate 1 (0 : ℚ)) [1] ∧
    (1 : ℚ) ≤ sumSq [1] ∧
    1 - cosineComputeReward (fun _ g => g) 1 [1] [] [1] ≤ 1e-8 :=
  ⟨rfl, by norm_num [sumSq, dot],
    (cosine_reward_decodes_and_is_bounded (fun _ g => g) 1 [1] [] [1]).2.2.2.2
      rfl (by norm_num [sumSq, dot])⟩
